import Mathlib

/-!
Verification of the incremental ETL loader `kirby_tracker_loader.py`.

The script reads activity rows from a spreadsheet, derives a combined
timestamp `act_dt` from the `date` and `start_time` columns, filters to the
rows strictly newer than the destination table's maximum `act_datetime`
(the watermark), stamps provenance columns, and appends the result to a
PostgreSQL table inside a single transaction.

The embedding below models timestamps as pairs of natural numbers
(a calendar-day index and a time-of-day index, compared lexicographically),
pandas data frames as Lean lists of records, the absent-`start_time`
(NaN) case as `Option`, and the database round trips as explicit state
passing with an `Except`-style success flag plus an operation trace.
-/

/-- A timestamp: a calendar-day index `d` and a time-of-day index `t`
within that day, ordered lexicographically.  This is the order type of the
pandas `Timestamp` values the script manipulates; `pd.Timestamp.min`, the
least representable timestamp, corresponds to `⟨0, 0⟩`. -/
structure DateTime where
  d : Nat
  t : Nat
deriving DecidableEq, Repr

namespace DateTime

/-- The pandas `Timestamp.min` value: the least representable timestamp
(line 117 of the source uses it as the sentinel watermark when the table
is empty). -/
def tsMin : DateTime := ⟨0, 0⟩

/-- Strict comparison `a < b` on timestamps (lexicographic). -/
def lt (a b : DateTime) : Bool :=
  a.d < b.d || (a.d == b.d && a.t < b.t)

/-- Non-strict comparison `a ≤ b` on timestamps (lexicographic). -/
def le (a b : DateTime) : Bool :=
  a.d < b.d || (a.d == b.d && a.t ≤ b.t)

/-- Line 121, `pd.to_datetime(str(date) + " " + str(start_time))`:
combining a date with a time-of-day yields the timestamp with those two
components. -/
def combine (date : Nat) (time : Nat) : DateTime := ⟨date, time⟩

theorem lt_iff (a b : DateTime) :
    lt a b = true ↔ a.d < b.d ∨ (a.d = b.d ∧ a.t < b.t) := by
  cases a; cases b
  simp [lt, Nat.lt_iff_add_one_le]

theorem le_iff (a b : DateTime) :
    le a b = true ↔ a.d < b.d ∨ (a.d = b.d ∧ a.t ≤ b.t) := by
  cases a; cases b
  simp [le, Nat.lt_iff_add_one_le]

theorem lt_irrefl (a : DateTime) : lt a a = false := by
  cases a; simp [lt]

theorem not_lt_iff_le (a b : DateTime) : lt a b = false ↔ le b a = true := by
  rw [← Bool.not_eq_true, le_iff]
  rw [lt_iff]
  constructor
  · intro h
    rcases Nat.lt_trichotomy a.d b.d with h1 | h1 | h1
    · exact absurd (Or.inl h1) h
    · right; constructor
      · omega
      · by_contra h2
        exact h (Or.inr ⟨h1, by omega⟩)
    · left; exact h1
  · intro h h2
    rcases h with h | h <;> rcases h2 with h2 | h2 <;> omega

theorem le_refl (a : DateTime) : le a a = true := by
  rw [le_iff]; right; exact ⟨rfl, Nat.le_refl _⟩

theorem le_trans {a b c : DateTime} (h1 : le a b = true) (h2 : le b c = true) :
    le a c = true := by
  rw [le_iff] at *
  rcases h1 with h1 | h1 <;> rcases h2 with h2 | h2 <;> [skip; skip; skip; skip] <;> omega

theorem lt_le_trans {a b c : DateTime} (h1 : lt a b = true) (h2 : le b c = true) :
    lt a c = true := by
  rw [lt_iff] at *
  rw [le_iff] at h2
  rcases h1 with h1 | h1 <;> rcases h2 with h2 | h2 <;> omega

theorem tsMin_le (a : DateTime) : le tsMin a = true := by
  rw [le_iff]; cases a with
  | mk d t =>
    simp [tsMin]
    omega

end DateTime

/-- SQL `max` over two timestamps. -/
def dtMax (a b : DateTime) : DateTime :=
  if DateTime.lt a b then b else a

/-- SQL `SELECT max(act_datetime)` over a column of timestamps: `none` when
the column is empty (SQL `max` over zero rows is NULL, surfacing in Python
as `result is None`, line 117). -/
def listMax : List DateTime → Option DateTime
  | [] => none
  | x :: xs =>
    match listMax xs with
    | none => some x
    | some m => some (dtMax x m)

theorem le_dtMax_left (a b : DateTime) : DateTime.le a (dtMax a b) = true := by
  unfold dtMax
  by_cases h : DateTime.lt a b = true
  · simp only [h, if_true]
    rw [DateTime.le_iff]
    rw [DateTime.lt_iff] at h
    rcases h with h | h
    · left; exact h
    · right; exact ⟨h.1, Nat.le_of_lt h.2⟩
  · simp only [h, if_false, Bool.false_eq_true, DateTime.le_refl]

theorem le_dtMax_right (a b : DateTime) : DateTime.le b (dtMax a b) = true := by
  unfold dtMax
  by_cases h : DateTime.lt a b = true
  · simp only [h, if_true, DateTime.le_refl]
  · simp only [h, if_false, Bool.false_eq_true]
    rw [Bool.not_eq_true] at h
    exact (DateTime.not_lt_iff_le a b).mp h

theorem dtMax_eq_or (a b : DateTime) : dtMax a b = a ∨ dtMax a b = b := by
  unfold dtMax
  by_cases h : DateTime.lt a b = true <;> simp [h]

/-- Every element of the column is bounded by its `max`. -/
theorem le_listMax {l : List DateTime} {x : DateTime} (hx : x ∈ l) :
    ∃ m, listMax l = some m ∧ DateTime.le x m = true := by
  induction l with
  | nil => cases hx
  | cons y ys ih =>
    rcases List.mem_cons.mp hx with h | h
    · subst h
      cases hys : listMax ys with
      | none => exact ⟨x, by simp [listMax, hys], DateTime.le_refl x⟩
      | some m => exact ⟨dtMax x m, by simp [listMax, hys], le_dtMax_left x m⟩
    · obtain ⟨m, hm, hle⟩ := ih h
      exact ⟨dtMax y m, by simp [listMax, hm], DateTime.le_trans hle (le_dtMax_right y m)⟩

/-- The `max` of a non-empty column is attained by one of its elements. -/
theorem listMax_mem {l : List DateTime} {m : DateTime} (h : listMax l = some m) :
    m ∈ l := by
  induction l generalizing m with
  | nil => cases h
  | cons y ys ih =>
    cases hys : listMax ys with
    | none =>
      rw [listMax, hys] at h
      injection h with h
      subst h
      exact List.mem_cons_self y ys
    | some m0 =>
      rw [listMax, hys] at h
      injection h with h
      subst h
      rcases dtMax_eq_or y m0 with he | he <;> rw [he]
      · exact List.mem_cons_self y ys
      · exact List.mem_cons_of_mem y (ih hys)

theorem listMax_append_le (l1 l2 : List DateTime) {m1 : DateTime}
    (h1 : listMax l1 = some m1) :
    ∃ m, listMax (l1 ++ l2) = some m ∧ DateTime.le m1 m = true := by
  have hmem : m1 ∈ l1 ++ l2 := List.mem_append_left l2 (listMax_mem h1)
  exact le_listMax hmem

/-- A row of the Excel sheet after `read_from_excel_sheet` (columns A:D,
line 89): `activity`, `date`, `start_time`, `note`.  A missing (NaN)
`start_time` is `none`; `note` may likewise be missing. -/
structure SourceRecord where
  activity : String
  date : Nat
  start_time : Option Nat
  note : Option String
deriving DecidableEq, Repr

/-- A row of the destination table `public.activity` as built on lines
126-128: the projected columns `activity`, `act_datetime` (renamed from
`act_dt`), `note`, plus the stamps `insert_datetime` and `insert_process`.
The raw `date` and `start_time` columns do not exist in this shape. -/
structure DestRecord where
  activity : String
  act_datetime : DateTime
  note : Option String
  insert_datetime : DateTime
  insert_process : String
deriving DecidableEq, Repr

/-- Line 120: `df = df.dropna(subset=["start_time"])` — drop the rows whose
`start_time` is missing. -/
def dropnaStartTime (df : List SourceRecord) : List SourceRecord :=
  df.filter (fun r => r.start_time.isSome)

/-- Line 121: `df["act_dt"] = pd.to_datetime(df["date"].astype(str) + " " +
df["start_time"].astype(str))` — attach to each remaining row the combined
timestamp of its date and start time.  (On the rows reaching this line
`start_time` is present; the `filterMap` keeps the pairing total.) -/
def withActDt (df : List SourceRecord) : List (SourceRecord × DateTime) :=
  df.filterMap (fun r => r.start_time.map (fun t => (r, DateTime.combine r.date t)))

/-- Line 125: `inc_df = df[df["act_dt"] > max_act_datetime_tgt]` — keep the
rows whose combined timestamp is strictly greater than the watermark. -/
def incFilter (df : List SourceRecord) (wm : DateTime) : List (SourceRecord × DateTime) :=
  (withActDt (dropnaStartTime df)).filter (fun p => DateTime.lt wm p.2)

/-- The provenance tag assigned on line 128. -/
def insertProcessTag : String := "kirby_tracker_loader.py"

/-- Lines 126-128: `inc_df = inc_df[["activity", "act_dt", "note"]].rename(
columns={"act_dt": "act_datetime"})`, then the scalar column assignments
`inc_df["insert_datetime"] = datetime.now()` and
`inc_df["insert_process"] = "kirby_tracker_loader.py"`.  `now` is the single
`datetime.now()` value of the run. -/
def projectRecord (now : DateTime) (p : SourceRecord × DateTime) : DestRecord :=
  ⟨p.1.activity, p.2, p.1.note, now, insertProcessTag⟩

/-- The whole transform of lines 120-128: from the raw source frame and the
watermark to the frame that will be appended to the destination table. -/
def transformIncrement (df : List SourceRecord) (wm : DateTime) (now : DateTime) :
    List DestRecord :=
  (incFilter df wm).map (projectRecord now)

/-- Membership in the filtered frame, characterised. -/
theorem mem_incFilter_iff (df : List SourceRecord) (wm : DateTime)
    (r : SourceRecord) (dt : DateTime) :
    (r, dt) ∈ incFilter df wm ↔
      r ∈ df ∧ (∃ t, r.start_time = some t ∧ dt = DateTime.combine r.date t) ∧
        DateTime.lt wm dt = true := by
  unfold incFilter withActDt dropnaStartTime
  rw [List.mem_filter]
  rw [List.mem_filterMap]
  constructor
  · rintro ⟨⟨a, ha, hmap⟩, hlt⟩
    rw [List.mem_filter] at ha
    cases hst : a.start_time with
    | none => rw [hst] at hmap; cases hmap
    | some t =>
      rw [hst] at hmap
      simp only [Option.map_some'] at hmap
      injection hmap with h1
      have hr : a = r := congrArg Prod.fst h1
      have hdt : DateTime.combine a.date t = dt := congrArg Prod.snd h1
      subst hr
      exact ⟨ha.1, ⟨t, hst, hdt.symm⟩, hlt⟩
  · rintro ⟨hmem, ⟨t, hst, hdt⟩, hlt⟩
    refine ⟨⟨r, ?_, ?_⟩, hlt⟩
    · rw [List.mem_filter]
      exact ⟨hmem, by rw [hst]; rfl⟩
    · rw [hst]
      simp only [Option.map_some']
      rw [hdt]

/-- Lines 113-117: `SELECT max(act_datetime) FROM {schema}.{table}` then
`pd.to_datetime(result) if result is not None else pd.Timestamp.min`.
The destination table is `Option (List DestRecord)`: `none` models an
absent table, for which PostgreSQL raises an undefined-table error that
the query call re-raises; `some rows` models a present table with the
given rows.  A present table yields `some` of the column maximum, or
`none` (SQL NULL) when it has no rows. -/
def queryMaxActDatetime (table : Option (List DestRecord)) :
    Except String (Option DateTime) :=
  match table with
  | none => Except.error "UndefinedTable"
  | some rows => Except.ok (listMax (rows.map (fun r => r.act_datetime)))

/-- Line 117 applied to a present table: the watermark is the column
maximum, with `pd.Timestamp.min` substituted when the result is NULL. -/
def watermark (rows : List DestRecord) : DateTime :=
  (listMax (rows.map (fun r => r.act_datetime))).getD DateTime.tsMin

/-- One observable database write operation of the loader. -/
inductive DbOp where
  | beginTxn : DbOp
  | insertRow : DestRecord → DbOp
  | commit : DbOp
  | rollback : DbOp
deriving DecidableEq, Repr

/-- Line 137, `inc_df.to_sql(..., if_exists="append", ...)` inside the
open transaction: the rows are inserted one after another, appending to
the table's current contents; `ok` tells whether a given row's INSERT
succeeds (a constraint violation or connection drop makes it fail).  The
first failing row aborts the remaining inserts and the whole call reports
failure.  Returns the table contents as executed so far inside the
transaction, the trace of issued INSERTs, and the success flag. -/
def insertSeq (dest : List DestRecord) (rows : List DestRecord)
    (ok : DestRecord → Bool) : List DestRecord × List DbOp × Bool :=
  match rows with
  | [] => (dest, [], true)
  | r :: rs =>
    if ok r then
      let step := insertSeq (dest ++ [r]) rs ok
      (step.1, DbOp.insertRow r :: step.2.1, step.2.2)
    else (dest, [DbOp.insertRow r], false)

/-- Outcome of the load step: the table contents visible afterwards, the
trace of database write operations issued, and whether the step
succeeded. -/
structure LoadResult where
  table : List DestRecord
  ops : List DbOp
  success : Bool
deriving DecidableEq, Repr

/-- Lines 130-138: `if inc_df.empty:` log and do nothing; otherwise
`with engine.begin() as conn: inc_df.to_sql(...)`.  `engine.begin()`
opens a transaction that commits when the block exits normally and rolls
back when it raises, so on any insert failure the visible table contents
are exactly the original rows. -/
def runLoader (dest : List DestRecord) (rows : List DestRecord)
    (ok : DestRecord → Bool) : LoadResult :=
  if rows.isEmpty then ⟨dest, [], true⟩
  else
    let step := insertSeq dest rows ok
    if step.2.2 then ⟨step.1, DbOp.beginTxn :: step.2.1 ++ [DbOp.commit], true⟩
    else ⟨dest, DbOp.beginTxn :: step.2.1 ++ [DbOp.rollback], false⟩

/-- The function `transform_load_to_postgresql` (lines 107-148) on a present or absent
destination table: resolve the watermark, filter and project the source
frame, then load.  An absent table makes the watermark query raise, which
the function re-raises (line 142); a failed insert likewise re-raises
after the transaction rolled back.  On error the returned table contents
are the ones visible in the destination afterwards. -/
def transform_load_to_postgresql (df : List SourceRecord)
    (table : Option (List DestRecord)) (now : DateTime)
    (ok : DestRecord → Bool) : Except (String × List DestRecord) LoadResult :=
  match table with
  | none => Except.error ("UndefinedTable", [])
  | some rows =>
    let wm := watermark rows
    let inc := transformIncrement df wm now
    let res := runLoader rows inc ok
    if res.success then Except.ok res
    else Except.error ("InsertFailed", res.table)

/-- The stages `main` (lines 153-172) runs, in source order.  The last
three live inside `transform_load_to_postgresql`. -/
inductive Stage where
  | getCredential : Stage
  | readExcel : Stage
  | resolveWatermark : Stage
  | filterStage : Stage
  | loadStage : Stage
deriving DecidableEq, Repr

/-- The function `main` (lines 153-172): fetch the credentials, read the Excel sheet,
then transform-and-load; any exception skips the remaining stages and
ends in `sys.exit(1)` (line 172), while a clean run falls off the end of
`main` (exit status 0).  The credential and Excel stages are external
I/O, supplied here as their outcomes; the result is the exit status
paired with the list of stages that actually executed. -/
def mainRun (cred : Except String Unit)
    (excel : Except String (List SourceRecord))
    (table : Option (List DestRecord)) (now : DateTime)
    (ok : DestRecord → Bool) : Nat × List Stage :=
  match cred with
  | Except.error _ => (1, [Stage.getCredential])
  | Except.ok _ =>
    match excel with
    | Except.error _ => (1, [Stage.getCredential, Stage.readExcel])
    | Except.ok df =>
      match table with
      | none =>
        (1, [Stage.getCredential, Stage.readExcel, Stage.resolveWatermark])
      | some rows =>
        let res := runLoader rows (transformIncrement df (watermark rows) now) ok
        (if res.success then 0 else 1,
         [Stage.getCredential, Stage.readExcel, Stage.resolveWatermark,
          Stage.filterStage, Stage.loadStage])

/-- Membership in the frame after `dropna` + `act_dt`, characterised. -/
theorem mem_withActDt_iff (df : List SourceRecord) (r : SourceRecord)
    (dt : DateTime) :
    (r, dt) ∈ withActDt (dropnaStartTime df) ↔
      r ∈ df ∧ ∃ t, r.start_time = some t ∧ dt = DateTime.combine r.date t := by
  unfold withActDt dropnaStartTime
  rw [List.mem_filterMap]
  constructor
  · rintro ⟨a, ha, hmap⟩
    rw [List.mem_filter] at ha
    cases hst : a.start_time with
    | none => rw [hst] at hmap; cases hmap
    | some t =>
      rw [hst] at hmap
      simp only [Option.map_some'] at hmap
      injection hmap with h1
      have hr : a = r := congrArg Prod.fst h1
      have hdt : DateTime.combine a.date t = dt := congrArg Prod.snd h1
      subst hr
      exact ⟨ha.1, t, hst, hdt.symm⟩
  · rintro ⟨hmem, t, hst, hdt⟩
    refine ⟨r, ?_, ?_⟩
    · rw [List.mem_filter]
      exact ⟨hmem, by rw [hst]; rfl⟩
    · rw [hst]
      simp only [Option.map_some']
      rw [hdt]

/-- Every row of the transformed frame has `act_datetime` strictly above
the watermark it was filtered against. -/
theorem act_lt_of_mem_transformIncrement {df : List SourceRecord}
    {wm now : DateTime} {d : DestRecord}
    (hd : d ∈ transformIncrement df wm now) :
    DateTime.lt wm d.act_datetime = true := by
  unfold transformIncrement at hd
  rw [List.mem_map] at hd
  obtain ⟨p, hp, hpd⟩ := hd
  unfold incFilter at hp
  rw [List.mem_filter] at hp
  have : d.act_datetime = p.2 := by rw [← hpd]; rfl
  rw [this]
  exact hp.2

/-- The watermark of a table bounds every stored `act_datetime`. -/
theorem watermark_ge_mem {rows : List DestRecord} {d : DestRecord}
    (hd : d ∈ rows) : DateTime.le d.act_datetime (watermark rows) = true := by
  have hx : d.act_datetime ∈ rows.map (fun r => r.act_datetime) :=
    List.mem_map.mpr ⟨d, hd, rfl⟩
  obtain ⟨m, hm, hle⟩ := le_listMax hx
  unfold watermark
  rw [hm]
  exact hle

/-- Appending rows can only move the watermark up. -/
theorem watermark_le_append (rows l : List DestRecord) :
    DateTime.le (watermark rows) (watermark (rows ++ l)) = true := by
  cases hm : listMax (rows.map (fun r => r.act_datetime)) with
  | none =>
    unfold watermark
    rw [hm]
    exact DateTime.tsMin_le _
  | some m1 =>
    have hmap : (rows ++ l).map (fun r => r.act_datetime)
        = rows.map (fun r => r.act_datetime) ++ l.map (fun r => r.act_datetime) :=
      List.map_append _ rows l
    obtain ⟨m, hm2, hle2⟩ := listMax_append_le (rows.map (fun r => r.act_datetime))
      (l.map (fun r => r.act_datetime)) hm
    unfold watermark
    rw [hm, hmap, hm2]
    exact hle2

/-- When every row's INSERT succeeds, the sequential insert appends all of
them, issuing one INSERT per row. -/
theorem insertSeq_all_ok (rows : List DestRecord) (ok : DestRecord → Bool)
    (hok : ∀ r ∈ rows, ok r = true) :
    ∀ dest, insertSeq dest rows ok = (dest ++ rows, rows.map DbOp.insertRow, true) := by
  induction rows with
  | nil => intro dest; simp [insertSeq]
  | cons r rs ih =>
    intro dest
    have hr : ok r = true := hok r (List.mem_cons_self r rs)
    have hrs : ∀ x ∈ rs, ok x = true := fun x hx => hok x (List.mem_cons_of_mem r hx)
    unfold insertSeq
    rw [hr]
    simp only [if_true]
    rw [ih hrs (dest ++ [r])]
    simp

/-- When some row's INSERT fails, the sequential insert reports failure. -/
theorem insertSeq_fails (rows : List DestRecord) (ok : DestRecord → Bool)
    (hfail : ∃ r ∈ rows, ok r = false) :
    ∀ dest, (insertSeq dest rows ok).2.2 = false := by
  induction rows with
  | nil =>
    obtain ⟨r, hr, _⟩ := hfail
    cases hr
  | cons r rs ih =>
    intro dest
    by_cases hr : ok r = true
    · unfold insertSeq
      rw [hr]
      simp only [if_true]
      obtain ⟨x, hx, hxf⟩ := hfail
      rcases List.mem_cons.mp hx with h | h
      · subst h; rw [hr] at hxf; cases hxf
      · exact ih ⟨x, h, hxf⟩ (dest ++ [r])
    · unfold insertSeq
      rw [Bool.not_eq_true] at hr
      rw [hr]
      simp

/-- An all-successful load commits and the table holds the old rows
followed by the new ones. -/
theorem runLoader_all_ok (dest rows : List DestRecord) (ok : DestRecord → Bool)
    (hok : ∀ r ∈ rows, ok r = true) :
    (runLoader dest rows ok).table = dest ++ rows ∧
    (runLoader dest rows ok).success = true := by
  unfold runLoader
  cases rows with
  | nil => simp
  | cons r rs =>
    rw [insertSeq_all_ok (r :: rs) ok hok dest]
    simp

/-- An empty frame makes the loader skip the database entirely. -/
theorem runLoader_nil (dest : List DestRecord) (ok : DestRecord → Bool) :
    runLoader dest [] ok = ⟨dest, [], true⟩ := by
  simp [runLoader]

/-- C1: for every source record with a non-null `start_time` and every
watermark value `T`, the incremental filter includes the record in its
output iff its derived timestamp `act_dt` (date combined with
`start_time`) is strictly greater than `T`; in particular a record whose
`act_dt` equals `T` exactly is excluded. -/
theorem incFilter_strict_watermark (df : List SourceRecord) (wm : DateTime)
    (r : SourceRecord) (t : Nat) (hmem : r ∈ df) (hst : r.start_time = some t) :
    ((r, DateTime.combine r.date t) ∈ incFilter df wm ↔
      DateTime.lt wm (DateTime.combine r.date t) = true) ∧
    (DateTime.combine r.date t = wm →
      (r, DateTime.combine r.date t) ∉ incFilter df wm) := by
  constructor
  · rw [mem_incFilter_iff]
    constructor
    · rintro ⟨_, _, hlt⟩
      exact hlt
    · intro hlt
      exact ⟨hmem, ⟨t, hst, rfl⟩, hlt⟩
  · intro heq hmem2
    rw [mem_incFilter_iff] at hmem2
    have hlt := hmem2.2.2
    rw [heq, DateTime.lt_irrefl] at hlt
    cases hlt

/-- Witness for C1 at a concrete record and watermark. -/
theorem incFilter_strict_watermark_witness :
    (⟨"B", 1, some 10, none⟩ : SourceRecord) ∈
      [(⟨"B", 1, some 10, none⟩ : SourceRecord)] ∧
    (⟨"B", 1, some 10, none⟩ : SourceRecord).start_time = some 10 ∧
    ((((⟨"B", 1, some 10, none⟩ : SourceRecord), DateTime.combine 1 10) ∈
        incFilter [⟨"B", 1, some 10, none⟩] ⟨1, 5⟩ ↔
      DateTime.lt ⟨1, 5⟩ (DateTime.combine 1 10) = true) ∧
    (DateTime.combine 1 10 = ⟨1, 5⟩ →
      ((⟨"B", 1, some 10, none⟩ : SourceRecord), DateTime.combine 1 10) ∉
        incFilter [⟨"B", 1, some 10, none⟩] ⟨1, 5⟩)) :=
  ⟨by decide, by decide,
    incFilter_strict_watermark [⟨"B", 1, some 10, none⟩] ⟨1, 5⟩
      ⟨"B", 1, some 10, none⟩ 10 (by decide) (by decide)⟩

/-- C3: for every source table and every watermark, a source record whose
`start_time` is null never appears in the filter's output, regardless of
its date value: it is dropped by the `dropna` step before `act_dt` is
computed, not defaulted to any timestamp. -/
theorem null_start_time_excluded (df : List SourceRecord) (wm : DateTime)
    (r : SourceRecord) (h : r.start_time = none) :
    r ∉ dropnaStartTime df ∧ ∀ dt, (r, dt) ∉ incFilter df wm := by
  constructor
  · intro hmem
    unfold dropnaStartTime at hmem
    rw [List.mem_filter] at hmem
    have h2 := hmem.2
    rw [h] at h2
    cases h2
  · intro dt hmem
    rw [mem_incFilter_iff] at hmem
    obtain ⟨_, ⟨t, hst, _⟩, _⟩ := hmem
    rw [h] at hst
    cases hst

/-- Witness for C3 at a concrete record lacking a start time. -/
theorem null_start_time_excluded_witness :
    (⟨"C", 5, none, none⟩ : SourceRecord).start_time = none ∧
    (⟨"C", 5, none, none⟩ : SourceRecord) ∉
      dropnaStartTime [⟨"C", 5, none, none⟩] ∧
    ((⟨"C", 5, none, none⟩ : SourceRecord), DateTime.combine 5 0) ∉
      incFilter [⟨"C", 5, none, none⟩] ⟨0, 0⟩ :=
  ⟨rfl,
    (null_start_time_excluded [⟨"C", 5, none, none⟩] ⟨0, 0⟩
      ⟨"C", 5, none, none⟩ rfl).1,
    (null_start_time_excluded [⟨"C", 5, none, none⟩] ⟨0, 0⟩
      ⟨"C", 5, none, none⟩ rfl).2 (DateTime.combine 5 0)⟩

/-- C7: with destination watermark 2024-01-01T09:00:00 and source rows
[(A, 2024-01-01, 08:00), (B, 2024-01-01, 10:00), (C, 2024-01-01, None)],
the filter's output is exactly one record, for B, with
`act_datetime` = 2024-01-01T10:00:00.  The encoding uses day index
20240101 for 2024-01-01 and minutes of the day for the time component
(480 = 08:00, 540 = 09:00, 600 = 10:00). -/
theorem scenario_single_record_b (now : DateTime) :
    transformIncrement
      [⟨"A", 20240101, some 480, none⟩,
       ⟨"B", 20240101, some 600, none⟩,
       ⟨"C", 20240101, none, none⟩]
      ⟨20240101, 540⟩ now
      = [⟨"B", ⟨20240101, 600⟩, none, now, "kirby_tracker_loader.py"⟩] := rfl

/-- C8: every record surviving the filter is projected to exactly the
destination shape: `act_dt` becomes `act_datetime`, `activity` and `note`
are retained unchanged, the raw `date`/`start_time` pair is discarded
(the `DestRecord` shape has no such fields), and the record is stamped
with the run's load time and the fixed provenance tag. -/
theorem projection_to_destination_shape (df : List SourceRecord)
    (wm now : DateTime) (d : DestRecord)
    (hd : d ∈ transformIncrement df wm now) :
    ∃ r t, r ∈ df ∧ r.start_time = some t ∧
      DateTime.lt wm (DateTime.combine r.date t) = true ∧
      d.activity = r.activity ∧
      d.act_datetime = DateTime.combine r.date t ∧
      d.note = r.note ∧
      d.insert_datetime = now ∧
      d.insert_process = insertProcessTag := by
  unfold transformIncrement at hd
  rw [List.mem_map] at hd
  obtain ⟨p, hp, hpd⟩ := hd
  obtain ⟨r, dt⟩ := p
  rw [mem_incFilter_iff] at hp
  obtain ⟨hmem, ⟨t, hst, hdt⟩, hlt⟩ := hp
  subst hdt
  refine ⟨r, t, hmem, hst, hlt, ?_, ?_, ?_, ?_, ?_⟩ <;> rw [← hpd] <;> rfl

/-- Witness for C8 at a concrete surviving record. -/
theorem projection_to_destination_shape_witness :
    (⟨"B", ⟨1, 10⟩, none, ⟨2, 0⟩, insertProcessTag⟩ : DestRecord) ∈
      transformIncrement [⟨"B", 1, some 10, none⟩] ⟨1, 5⟩ ⟨2, 0⟩ ∧
    ∃ r t, r ∈ [(⟨"B", 1, some 10, none⟩ : SourceRecord)] ∧
      r.start_time = some t ∧
      DateTime.lt ⟨1, 5⟩ (DateTime.combine r.date t) = true ∧
      (⟨"B", ⟨1, 10⟩, none, ⟨2, 0⟩, insertProcessTag⟩ : DestRecord).activity
        = r.activity ∧
      (⟨"B", ⟨1, 10⟩, none, ⟨2, 0⟩, insertProcessTag⟩ : DestRecord).act_datetime
        = DateTime.combine r.date t ∧
      (⟨"B", ⟨1, 10⟩, none, ⟨2, 0⟩, insertProcessTag⟩ : DestRecord).note = r.note ∧
      (⟨"B", ⟨1, 10⟩, none, ⟨2, 0⟩, insertProcessTag⟩ : DestRecord).insert_datetime
        = ⟨2, 0⟩ ∧
      (⟨"B", ⟨1, 10⟩, none, ⟨2, 0⟩, insertProcessTag⟩ : DestRecord).insert_process
        = insertProcessTag :=
  ⟨by decide,
    projection_to_destination_shape [⟨"B", 1, some 10, none⟩] ⟨1, 5⟩ ⟨2, 0⟩
      ⟨"B", ⟨1, 10⟩, none, ⟨2, 0⟩, insertProcessTag⟩ (by decide)⟩

/-- C10: within a single run, every record in the filter's output carries
the identical `insert_process` value, the constant string
"kirby_tracker_loader.py", and all records of the run share one and the
same `insert_datetime` value — the single `datetime.now()` of the run,
taken once before the write (line 127 assigns one scalar to the whole
column). -/
theorem stamps_uniform_per_run (df : List SourceRecord) (wm now : DateTime)
    (d : DestRecord) (hd : d ∈ transformIncrement df wm now) :
    d.insert_process = "kirby_tracker_loader.py" ∧
    d.insert_datetime = now ∧
    ∀ e ∈ transformIncrement df wm now, e.insert_datetime = d.insert_datetime := by
  unfold transformIncrement at hd
  rw [List.mem_map] at hd
  obtain ⟨p, hp, hpd⟩ := hd
  refine ⟨by rw [← hpd]; rfl, by rw [← hpd]; rfl, ?_⟩
  intro e he
  unfold transformIncrement at he
  rw [List.mem_map] at he
  obtain ⟨q, hq, hqe⟩ := he
  rw [← hpd, ← hqe]
  rfl

/-- Witness for C10 at a concrete run. -/
theorem stamps_uniform_per_run_witness :
    (⟨"B", ⟨1, 10⟩, none, ⟨3, 7⟩, insertProcessTag⟩ : DestRecord) ∈
      transformIncrement [⟨"B", 1, some 10, none⟩] ⟨1, 5⟩ ⟨3, 7⟩ ∧
    (⟨"B", ⟨1, 10⟩, none, ⟨3, 7⟩, insertProcessTag⟩ : DestRecord).insert_process
      = "kirby_tracker_loader.py" ∧
    (⟨"B", ⟨1, 10⟩, none, ⟨3, 7⟩, insertProcessTag⟩ : DestRecord).insert_datetime
      = ⟨3, 7⟩ ∧
    ∀ e ∈ transformIncrement [⟨"B", 1, some 10, none⟩] ⟨1, 5⟩ ⟨3, 7⟩,
      e.insert_datetime =
        (⟨"B", ⟨1, 10⟩, none, ⟨3, 7⟩, insertProcessTag⟩ : DestRecord).insert_datetime :=
  ⟨by decide,
    stamps_uniform_per_run [⟨"B", 1, some 10, none⟩] ⟨1, 5⟩ ⟨3, 7⟩
      ⟨"B", ⟨1, 10⟩, none, ⟨3, 7⟩, insertProcessTag⟩ (by decide)⟩

/-- The `max` of a non-empty column exists. -/
theorem listMax_of_ne_nil {l : List DateTime} (h : l ≠ []) :
    ∃ m, listMax l = some m := by
  cases l with
  | nil => exact absurd rfl h
  | cons x xs =>
    cases hxs : listMax xs with
    | none => exact ⟨x, by simp [listMax, hxs]⟩
    | some m => exact ⟨dtMax x m, by simp [listMax, hxs]⟩

/-- C4 counterexample: when the destination table is absent, the
watermark query raises an undefined-table error instead of returning the
sentinel minimum; moreover, with an empty (present) destination, a source
record with non-null `start_time` whose derived `act_dt` equals the
minimum representable datetime is excluded by the strict comparison, so
not every valid record is treated as new. -/
theorem watermark_resolver_claim_cex :
    queryMaxActDatetime none = Except.error "UndefinedTable" ∧
    (⟨"A", 0, some 0, none⟩ : SourceRecord).start_time = some 0 ∧
    transformIncrement [⟨"A", 0, some 0, none⟩] (watermark []) ⟨1, 0⟩ = [] :=
  ⟨rfl, rfl, rfl⟩

/-- C4 (amended): the watermark resolver returns the maximum
`act_datetime` stored when the destination table exists and is non-empty
(it bounds every stored value and is attained by one of them), returns
the minimum representable datetime as a sentinel when the table exists
but has no rows, and raises an error when the table is absent; with an
empty destination, every source record with a non-null `start_time`
whose derived `act_dt` is strictly greater than the minimum representable
datetime is treated as new and included in the filter output. -/
theorem watermark_resolver_amended (rows : List DestRecord)
    (df : List SourceRecord) (r : SourceRecord) (t : Nat)
    (hne : rows ≠ []) (hmem : r ∈ df) (hst : r.start_time = some t)
    (hpos : DateTime.lt DateTime.tsMin (DateTime.combine r.date t) = true) :
    (∀ d ∈ rows, DateTime.le d.act_datetime (watermark rows) = true) ∧
    (∃ d ∈ rows, d.act_datetime = watermark rows) ∧
    queryMaxActDatetime (some rows)
      = Except.ok (listMax (rows.map (fun x => x.act_datetime))) ∧
    queryMaxActDatetime (some []) = Except.ok none ∧
    watermark [] = DateTime.tsMin ∧
    queryMaxActDatetime none = Except.error "UndefinedTable" ∧
    (r, DateTime.combine r.date t) ∈ incFilter df (watermark []) := by
  refine ⟨fun d hd => watermark_ge_mem hd, ?_, rfl, rfl, rfl, rfl, ?_⟩
  · have hmapne : rows.map (fun x => x.act_datetime) ≠ [] := by
      cases rows with
      | nil => exact absurd rfl hne
      | cons x xs => intro hc; cases hc
    obtain ⟨m, hm⟩ := listMax_of_ne_nil hmapne
    obtain ⟨d, hd, hdm⟩ := List.mem_map.mp (listMax_mem hm)
    refine ⟨d, hd, ?_⟩
    unfold watermark
    rw [hm, hdm]
    rfl
  · have hwm : watermark [] = DateTime.tsMin := rfl
    rw [hwm]
    exact (mem_incFilter_iff df DateTime.tsMin r
      (DateTime.combine r.date t)).mpr ⟨hmem, ⟨t, hst, rfl⟩, hpos⟩

/-- Witness for the amended C4 at a concrete table and record. -/
theorem watermark_resolver_amended_witness :
    ([(⟨"X", ⟨2, 2⟩, none, ⟨2, 2⟩, "p"⟩ : DestRecord)] ≠ []) ∧
    (⟨"B", 1, some 10, none⟩ : SourceRecord) ∈
      [(⟨"B", 1, some 10, none⟩ : SourceRecord)] ∧
    (⟨"B", 1, some 10, none⟩ : SourceRecord).start_time = some 10 ∧
    DateTime.lt DateTime.tsMin (DateTime.combine 1 10) = true ∧
    ((∀ d ∈ [(⟨"X", ⟨2, 2⟩, none, ⟨2, 2⟩, "p"⟩ : DestRecord)],
        DateTime.le d.act_datetime
          (watermark [⟨"X", ⟨2, 2⟩, none, ⟨2, 2⟩, "p"⟩]) = true) ∧
      (∃ d ∈ [(⟨"X", ⟨2, 2⟩, none, ⟨2, 2⟩, "p"⟩ : DestRecord)],
        d.act_datetime = watermark [⟨"X", ⟨2, 2⟩, none, ⟨2, 2⟩, "p"⟩]) ∧
      queryMaxActDatetime (some [⟨"X", ⟨2, 2⟩, none, ⟨2, 2⟩, "p"⟩])
        = Except.ok (listMax
            ([(⟨"X", ⟨2, 2⟩, none, ⟨2, 2⟩, "p"⟩ : DestRecord)].map
              (fun x => x.act_datetime))) ∧
      queryMaxActDatetime (some []) = Except.ok none ∧
      watermark [] = DateTime.tsMin ∧
      queryMaxActDatetime none = Except.error "UndefinedTable" ∧
      ((⟨"B", 1, some 10, none⟩ : SourceRecord), DateTime.combine 1 10) ∈
        incFilter [⟨"B", 1, some 10, none⟩] (watermark [])) :=
  ⟨by decide, by decide, by decide, by decide,
    watermark_resolver_amended [⟨"X", ⟨2, 2⟩, none, ⟨2, 2⟩, "p"⟩]
      [⟨"B", 1, some 10, none⟩] ⟨"B", 1, some 10, none⟩ 10
      (by decide) (by decide) (by decide) (by decide)⟩

/-- C5: the load of a non-empty filtered record set is all-or-nothing —
if inserting any one of the records fails, the transaction rolls back
entirely, the loader reports failure, and the destination table is
unchanged afterwards. -/
theorem load_all_or_nothing (dest rows : List DestRecord)
    (ok : DestRecord → Bool) (hne : rows ≠ [])
    (hfail : ∃ r ∈ rows, ok r = false) :
    (runLoader dest rows ok).table = dest ∧
    (runLoader dest rows ok).success = false ∧
    ∃ pre, (runLoader dest rows ok).ops
      = DbOp.beginTxn :: pre ++ [DbOp.rollback] := by
  have hf := insertSeq_fails rows ok hfail dest
  have hempty : rows.isEmpty = false := by
    cases rows with
    | nil => exact absurd rfl hne
    | cons r rs => rfl
  simp only [runLoader, hempty, Bool.false_eq_true, if_false, hf]
  exact ⟨trivial, trivial, (insertSeq dest rows ok).2.1, rfl⟩

/-- Witness for C5: one failing insert leaves an originally-empty table
empty and ends in rollback. -/
theorem load_all_or_nothing_witness :
    ([(⟨"X", ⟨1, 1⟩, none, ⟨1, 1⟩, "p"⟩ : DestRecord)] ≠ []) ∧
    (∃ r ∈ [(⟨"X", ⟨1, 1⟩, none, ⟨1, 1⟩, "p"⟩ : DestRecord)],
      (fun _ => false : DestRecord → Bool) r = false) ∧
    ((runLoader [] [⟨"X", ⟨1, 1⟩, none, ⟨1, 1⟩, "p"⟩]
        (fun _ => false)).table = [] ∧
      (runLoader [] [⟨"X", ⟨1, 1⟩, none, ⟨1, 1⟩, "p"⟩]
        (fun _ => false)).success = false ∧
      ∃ pre, (runLoader [] [⟨"X", ⟨1, 1⟩, none, ⟨1, 1⟩, "p"⟩]
        (fun _ => false)).ops = DbOp.beginTxn :: pre ++ [DbOp.rollback]) :=
  ⟨by decide, ⟨⟨"X", ⟨1, 1⟩, none, ⟨1, 1⟩, "p"⟩, by decide, rfl⟩,
    load_all_or_nothing [] [⟨"X", ⟨1, 1⟩, none, ⟨1, 1⟩, "p"⟩] (fun _ => false)
      (by decide) ⟨⟨"X", ⟨1, 1⟩, none, ⟨1, 1⟩, "p"⟩, by decide, rfl⟩⟩

/-- C6: whenever the filtered record set is empty (including when the
source table itself is empty), the loader performs no write operation
against the destination at all, the destination state is unchanged, and
the run completes without error. -/
theorem empty_filter_skips_load (dest : List DestRecord)
    (ok : DestRecord → Bool) (df : List SourceRecord) (wm now : DateTime)
    (h : transformIncrement df wm now = []) :
    runLoader dest (transformIncrement df wm now) ok = ⟨dest, [], true⟩ ∧
    transformIncrement ([] : List SourceRecord) wm now = [] := by
  rw [h]
  exact ⟨runLoader_nil dest ok, rfl⟩

/-- Witness for C6: a source row at or below the watermark filters to the
empty set and the loader touches nothing. -/
theorem empty_filter_skips_load_witness :
    transformIncrement [⟨"A", 3, some 0, none⟩] ⟨5, 5⟩ ⟨6, 0⟩ = [] ∧
    (runLoader [⟨"X", ⟨1, 1⟩, none, ⟨1, 1⟩, "q"⟩]
        (transformIncrement [⟨"A", 3, some 0, none⟩] ⟨5, 5⟩ ⟨6, 0⟩)
        (fun _ => true)
      = ⟨[⟨"X", ⟨1, 1⟩, none, ⟨1, 1⟩, "q"⟩], [], true⟩ ∧
    transformIncrement ([] : List SourceRecord) ⟨5, 5⟩ ⟨6, 0⟩ = []) :=
  ⟨by decide,
    empty_filter_skips_load [⟨"X", ⟨1, 1⟩, none, ⟨1, 1⟩, "q"⟩] (fun _ => true)
      [⟨"A", 3, some 0, none⟩] ⟨5, 5⟩ ⟨6, 0⟩ (by decide)⟩

/-- C9: the orchestrator runs its stages in order (resolve credentials,
read source, resolve watermark, filter, load); when a stage fails the
later stages do not execute and the process exits 1, and a run in which
every stage succeeds executes all five stages and exits 0 (the load
stage failing also exits 1). -/
theorem orchestrator_stage_order (e : String)
    (excel : Except String (List SourceRecord)) (df : List SourceRecord)
    (rows : List DestRecord) (table : Option (List DestRecord))
    (now : DateTime) (ok : DestRecord → Bool) :
    mainRun (Except.error e) excel table now ok = (1, [Stage.getCredential]) ∧
    mainRun (Except.ok ()) (Except.error e) table now ok
      = (1, [Stage.getCredential, Stage.readExcel]) ∧
    mainRun (Except.ok ()) (Except.ok df) none now ok
      = (1, [Stage.getCredential, Stage.readExcel, Stage.resolveWatermark]) ∧
    mainRun (Except.ok ()) (Except.ok df) (some rows) now ok
      = (if (runLoader rows (transformIncrement df (watermark rows) now) ok).success
            then 0 else 1,
         [Stage.getCredential, Stage.readExcel, Stage.resolveWatermark,
          Stage.filterStage, Stage.loadStage]) ∧
    (mainRun (Except.ok ()) (Except.ok df) (some rows) now (fun _ => true)).1 = 0 := by
  refine ⟨rfl, rfl, rfl, rfl, ?_⟩
  have hsuc := (runLoader_all_ok rows
    (transformIncrement df (watermark rows) now) (fun _ => true)
    (fun r _ => rfl)).2
  simp [mainRun, hsuc]

/-- C2: the incremental load is idempotent.  Every record of the filtered
frame has `act_datetime` strictly greater than the watermark observed at
the start of the run; a run whose inserts all succeed commits the old
rows followed by exactly those records; the new watermark bounds every
inserted `act_datetime`; and re-running the filter+load sequence with
unchanged source data against the resulting destination state yields an
empty filtered frame, hence zero rows inserted on the second run. -/
theorem incremental_load_idempotent (df : List SourceRecord)
    (rows : List DestRecord) (now now2 : DateTime) (ok : DestRecord → Bool)
    (hok : ∀ d, ok d = true) :
    (∀ d ∈ transformIncrement df (watermark rows) now,
      DateTime.lt (watermark rows) d.act_datetime = true) ∧
    (runLoader rows (transformIncrement df (watermark rows) now) ok).success = true ∧
    (runLoader rows (transformIncrement df (watermark rows) now) ok).table
      = rows ++ transformIncrement df (watermark rows) now ∧
    (∀ d ∈ transformIncrement df (watermark rows) now,
      DateTime.le d.act_datetime
        (watermark (rows ++ transformIncrement df (watermark rows) now)) = true) ∧
    transformIncrement df
      (watermark (rows ++ transformIncrement df (watermark rows) now)) now2 = [] ∧
    runLoader (rows ++ transformIncrement df (watermark rows) now)
      (transformIncrement df
        (watermark (rows ++ transformIncrement df (watermark rows) now)) now2) ok
      = ⟨rows ++ transformIncrement df (watermark rows) now, [], true⟩ := by
  obtain ⟨htab, hsuc⟩ := runLoader_all_ok rows
    (transformIncrement df (watermark rows) now) ok (fun r _ => hok r)
  have hbound : ∀ d ∈ transformIncrement df (watermark rows) now,
      DateTime.le d.act_datetime
        (watermark (rows ++ transformIncrement df (watermark rows) now)) = true :=
    fun d hd => watermark_ge_mem (List.mem_append_right rows hd)
  have hfil : incFilter df
      (watermark (rows ++ transformIncrement df (watermark rows) now)) = [] := by
    unfold incFilter
    rw [List.filter_eq_nil_iff]
    intro p hp
    obtain ⟨r, dt⟩ := p
    rw [mem_withActDt_iff] at hp
    obtain ⟨hr, t, hst, hdt⟩ := hp
    intro hcontra
    have hle : DateTime.le dt
        (watermark (rows ++ transformIncrement df (watermark rows) now)) = true := by
      cases hcase : DateTime.lt (watermark rows) dt with
      | true =>
        have hmem1 : (r, dt) ∈ incFilter df (watermark rows) :=
          (mem_incFilter_iff df (watermark rows) r dt).mpr
            ⟨hr, ⟨t, hst, hdt⟩, hcase⟩
        have hmem2 : projectRecord now (r, dt) ∈
            transformIncrement df (watermark rows) now :=
          List.mem_map.mpr ⟨(r, dt), hmem1, rfl⟩
        exact hbound (projectRecord now (r, dt)) hmem2
      | false =>
        exact DateTime.le_trans ((DateTime.not_lt_iff_le _ _).mp hcase)
          (watermark_le_append rows (transformIncrement df (watermark rows) now))
    have hfalse : DateTime.lt
        (watermark (rows ++ transformIncrement df (watermark rows) now)) dt = false :=
      (DateTime.not_lt_iff_le _ _).mpr hle
    rw [hfalse] at hcontra
    cases hcontra
  have h5 : transformIncrement df
      (watermark (rows ++ transformIncrement df (watermark rows) now)) now2 = [] := by
    show (incFilter df
      (watermark (rows ++ transformIncrement df (watermark rows) now))).map
        (projectRecord now2) = []
    rw [hfil]
    rfl
  refine ⟨fun d hd => act_lt_of_mem_transformIncrement hd, hsuc, htab, hbound, h5, ?_⟩
  rw [h5]
  exact runLoader_nil _ ok

/-- Witness for C2 at a concrete source frame and an initially empty
destination, with every insert succeeding. -/
theorem incremental_load_idempotent_witness :
    (∀ d : DestRecord, (fun _ => true : DestRecord → Bool) d = true) ∧
    ((∀ d ∈ transformIncrement [⟨"B", 1, some 10, none⟩] (watermark []) ⟨2, 0⟩,
      DateTime.lt (watermark ([] : List DestRecord)) d.act_datetime = true) ∧
    (runLoader [] (transformIncrement [⟨"B", 1, some 10, none⟩] (watermark []) ⟨2, 0⟩)
      (fun _ => true)).success = true ∧
    (runLoader [] (transformIncrement [⟨"B", 1, some 10, none⟩] (watermark []) ⟨2, 0⟩)
      (fun _ => true)).table
      = [] ++ transformIncrement [⟨"B", 1, some 10, none⟩] (watermark []) ⟨2, 0⟩ ∧
    (∀ d ∈ transformIncrement [⟨"B", 1, some 10, none⟩] (watermark []) ⟨2, 0⟩,
      DateTime.le d.act_datetime
        (watermark ([] ++ transformIncrement [⟨"B", 1, some 10, none⟩]
          (watermark []) ⟨2, 0⟩)) = true) ∧
    transformIncrement [⟨"B", 1, some 10, none⟩]
      (watermark ([] ++ transformIncrement [⟨"B", 1, some 10, none⟩]
        (watermark []) ⟨2, 0⟩)) ⟨3, 0⟩ = [] ∧
    runLoader ([] ++ transformIncrement [⟨"B", 1, some 10, none⟩] (watermark []) ⟨2, 0⟩)
      (transformIncrement [⟨"B", 1, some 10, none⟩]
        (watermark ([] ++ transformIncrement [⟨"B", 1, some 10, none⟩]
          (watermark []) ⟨2, 0⟩)) ⟨3, 0⟩) (fun _ => true)
      = ⟨[] ++ transformIncrement [⟨"B", 1, some 10, none⟩] (watermark []) ⟨2, 0⟩,
          [], true⟩) :=
  ⟨fun _ => rfl,
    incremental_load_idempotent [⟨"B", 1, some 10, none⟩] [] ⟨2, 0⟩ ⟨3, 0⟩
      (fun _ => true) (fun _ => rfl)⟩
